import Mathlib

set_option autoImplicit false

/-!
Shallow embedding of the peer package of dbadoy/rain
(src/internal/peer/peer.go): the post-handshake read loop `Run`, the
send helpers `sendBitfield` and `SendChoke`, and `Close`.

A byte is a `Nat` entry of a `List Nat` stream; multi-byte fields are
big-endian.  A blocking read that cannot deliver all requested bytes
(EOF, short read, read timeout) is a `none` from the reader, and the
loop returns on it exactly as the `binary.Read` / `io.ReadFull` /
`io.CopyN` error paths in the source do.  Channel sends to the
coordinator are taken to succeed; the `stopC` arm of each select is
just another `return` in the source and is not modelled separately.
A Go nil-pointer dereference is modelled as a distinguished `panicked`
exit; a Go `defer` runs on that path too, and `Run` models its
`defer close(p.disconnected)` accordingly.
-/

/-- Modelled from the spec: the package internal/bitfield is not under
src/ (peer.go only calls it).  Spec 4.1: bit i lives at byte i/8, bit
position 7 - i%8; `NumBytes n = ceil(n/8)`; `Count` is the number of
set bits; unused trailing bits of the last byte are ignored on decode.
The length is fixed at construction. -/
structure Bitfield where
  bytes : List Nat
  length : Nat
deriving DecidableEq, Repr

/-- Modelled from the spec, 4.1: `NumBytes(n) = ceil(n/8)`. -/
def NumBytes (n : Nat) : Nat := (n + 7) / 8

/-- Modelled from the spec: the number of pieces the bitfield covers. -/
def Bitfield.Len (bf : Bitfield) : Nat := bf.length

/-- Modelled from the spec, 4.1: bit i is bit 7 - i%8 of byte i/8. -/
def Bitfield.Test (bf : Bitfield) (i : Nat) : Bool :=
  Nat.testBit (bf.bytes.getD (i / 8) 0) (7 - i % 8)

/-- Modelled from the spec, 4.1: set bit i (only ever called with
i below length in peer.go, after the index bound check). -/
def Bitfield.Set (bf : Bitfield) (i : Nat) : Bitfield :=
  { bf with
    bytes := bf.bytes.set (i / 8) (bf.bytes.getD (i / 8) 0 ||| 2 ^ (7 - i % 8)) }

/-- Modelled from the spec, 4.1: the number of set bits. -/
def Bitfield.Count (bf : Bitfield) : Nat :=
  (List.range bf.length).countP fun i => bf.Test i

/-- Modelled from the spec, 4.1: decode a byte-packed bitfield of n
pieces from its wire bytes. -/
def Bitfield.NewBytes (b : List Nat) (n : Nat) : Bitfield := ⟨b, n⟩

/-- Modelled from the spec: the package internal/messageid is not under
src/; spec 4.2 fixes the wire ids 0..9. -/
def messageid.Choke : Nat := 0

def messageid.Unchoke : Nat := 1

def messageid.Interested : Nat := 2

def messageid.NotInterested : Nat := 3

def messageid.Have : Nat := 4

def messageid.Bitfield : Nat := 5

def messageid.Request : Nat := 6

def messageid.Piece : Nat := 7

def messageid.Cancel : Nat := 8

def messageid.Port : Nat := 9

/-- The Peer struct of peer.go:22.  The connection, the 20-byte id, the
outbound message channel, the logger and the mutex are not represented;
the two signalling channels stopC and disconnected are kept as
closed-flags. -/
structure Peer where
  numPieces : Nat
  amChoking : Bool
  amInterested : Bool
  peerChoking : Bool
  peerInterested : Bool
  bitfield : Option Bitfield
  stopClosed : Bool
  disconnectedClosed : Bool
deriving DecidableEq, Repr

/-- New (peer.go:42): amChoking and peerChoking start true, the
bitfield pointer starts nil, both channels are open. -/
def New (numPieces : Nat) : Peer :=
  ⟨numPieces, true, false, true, false, none, false, false⟩

/-- The bytes of a big-endian uint32. -/
def be32 (n : Nat) : List Nat :=
  [n / 2 ^ 24 % 256, n / 2 ^ 16 % 256, n / 2 ^ 8 % 256, n % 256]

/-- writeMessage (peer.go:372): 4-byte big-endian length field holding
1 + payload length, then the id byte, then the payload. -/
def writeMessage (id : Nat) (payload : List Nat) : List Nat :=
  be32 (1 + payload.length) ++ id :: payload

/-- sendBitfield (peer.go:305): sending the bitfield is omitted
entirely when it has no set piece. -/
def sendBitfield (b : Bitfield) : List Nat :=
  if b.Count = 0 then [] else writeMessage messageid.Bitfield b.bytes

/-- SendChoke (peer.go:335): returns without writing when amChoking is
already set; otherwise sets it and writes one choke message.  The
second component is the bytes written to the connection. -/
def SendChoke (p : Peer) : Peer × List Nat :=
  if p.amChoking then (p, [])
  else ({ p with amChoking := true }, writeMessage messageid.Choke [])

/-- Close (peer.go:68): runs close(p.stopC); a Go close of an already
closed channel panics, modelled as `none`.  conn.Close and the returned
error are not represented. -/
def Peer.Close (p : Peer) : Option Peer :=
  if p.stopClosed then none else some { p with stopClosed := true }

/-- binary.Read of one byte: the byte or an error. -/
def readByte : List Nat → Option (Nat × List Nat)
  | [] => none
  | b :: rest => some (b, rest)

/-- binary.Read of a big-endian uint32: four bytes or an error. -/
def readU32 : List Nat → Option (Nat × List Nat)
  | b0 :: b1 :: b2 :: b3 :: rest =>
    some (((b0 * 256 + b1) * 256 + b2) * 256 + b3, rest)
  | _ => none

/-- io.ReadFull / io.CopyN of n bytes: all n bytes or an error. -/
def readBytes : Nat → List Nat → Option (List Nat × List Nat)
  | 0, s => some ([], s)
  | _ + 1, [] => none
  | n + 1, b :: s =>
    match readBytes n s with
    | some (bs, r) => some (b :: bs, r)
    | none => none

/-- The protocol events the read loop forwards on the messages channel,
plus the closing of the disconnected channel as a trace event. -/
inductive Event
  | choke
  | havePiece (index : Nat)
  | disconnected
deriving DecidableEq, Repr

/-- How an iteration of the read loop ends the loop: a plain `return`
(I/O error, EOF, timeout or protocol violation), a runtime panic, or -
only in the fuel model, never reachable with enough fuel - fuel
exhaustion. -/
inductive LoopExit
  | ret
  | panicked
  | fuelOut
deriving DecidableEq, Repr

/-- Outcome of one iteration of the read loop: either the loop exits,
or it continues with an updated first-flag, peer state, emitted events
and the rest of the stream. -/
inductive StepResult
  | exit (events : List Event) (e : LoopExit)
  | next (first : Bool) (p : Peer) (events : List Event) (rest : List Nat)
deriving DecidableEq, Repr

/-- The synthetic have events of the bitfield branch (peer.go:185-193):
one event per set bit of the received bitfield, in index order. -/
def haveEvents (bf : Bitfield) : List Event :=
  (List.range bf.length).filterMap fun i =>
    if bf.Test i then some (Event.havePiece i) else none

/-- The switch of the read loop (peer.go:120-300), after the length
field and the id byte have been read; `len` is the already decremented
length (peer.go:116), `r2` the unread stream.
Choke/Unchoke/Interested/NotInterested update flags (only choke emits
an event; the others are TODO in the source).  Have reads 4 bytes,
returns on an out-of-range index, then calls Set on the possibly-nil
bitfield (a nil dereference panics).  Bitfield is rejected unless
first, its length must be NumBytes, the decoded bitfield is stored and
have events are emitted per set bit.  Piece reads the 8 fixed bytes of
index and begin; everything after `length -= 8` is commented out in
the source, so the declared block bytes stay in the stream.  Every
other id (Request included: its handler is commented out at
peer.go:194-215) hits the default branch, which discards the remaining
declared length and continues. -/
def handleMsg (first : Bool) (p : Peer) (id : Nat) (len : Nat) (r2 : List Nat) :
    StepResult :=
  if id = messageid.Choke then
    .next false { p with peerChoking := true } [Event.choke] r2
  else if id = messageid.Unchoke then
    .next false { p with peerChoking := false } [] r2
  else if id = messageid.Interested then
    .next false { p with peerInterested := true } [] r2
  else if id = messageid.NotInterested then
    .next false { p with peerInterested := false } [] r2
  else if id = messageid.Have then
    match readU32 r2 with
    | none => .exit [] .ret
    | some (index, r3) =>
      if p.numPieces ≤ index then
        .exit [] .ret
      else
        match p.bitfield with
        | none => .exit [] .panicked
        | some bf =>
          .next false { p with bitfield := some (bf.Set index) }
            [Event.havePiece index] r3
  else if id = messageid.Bitfield then
    if first = false then
      .exit [] .ret
    else if len ≠ NumBytes p.numPieces then
      .exit [] .ret
    else
      match readBytes (NumBytes p.numPieces) r2 with
      | none => .exit [] .ret
      | some (b, r3) =>
        .next false { p with bitfield := some (Bitfield.NewBytes b p.numPieces) }
          (haveEvents (Bitfield.NewBytes b p.numPieces)) r3
  else if id = messageid.Piece then
    match readBytes 8 r2 with
    | none => .exit [] .ret
    | some (_, r3) => .next false p [] r3
  else
    match readBytes len r2 with
    | none => .exit [] .ret
    | some (_, r3) => .next false p [] r3

/-- One iteration of the for loop of Run (peer.go:85-302).  Mirrors the
source: read the 4-byte length field (failure returns); length 0 is a
keep-alive that continues WITHOUT touching `first` (the Go `continue`
skips the `first = false` at the bottom of the loop); otherwise read
the id byte, decrement the length and dispatch on the id. -/
def step (first : Bool) (p : Peer) (input : List Nat) : StepResult :=
  match readU32 input with
  | none => .exit [] .ret
  | some (len0, r1) =>
    if len0 = 0 then
      .next first p [] r1
    else
      match readByte r1 with
      | none => .exit [] .ret
      | some (id, r2) => handleMsg first p id (len0 - 1) r2

/-- Final state of the read loop: peer state at exit, the events sent
to the coordinator channel, and how the loop ended. -/
structure LoopResult where
  peer : Peer
  events : List Event
  exit : LoopExit
deriving DecidableEq, Repr

/-- The for loop of Run, iterated with fuel.  Each continuing iteration
consumes at least 4 bytes of the stream, so fuel `input.length + 1`
never runs out (`runLoop_no_fuelOut`). -/
def runLoop : Nat → Bool → Peer → List Nat → LoopResult
  | 0, _, p, _ => ⟨p, [], .fuelOut⟩
  | fuel + 1, first, p, input =>
    match step first p input with
    | .exit evs e => ⟨p, evs, e⟩
    | .next f2 p2 evs rest =>
      let r := runLoop fuel f2 p2 rest
      ⟨r.peer, evs ++ r.events, r.exit⟩

/-- Everything observable about one call of Run: bytes written to the
connection, final peer state, the event trace (the close of the
disconnected channel appears in it as `Event.disconnected`), and the
loop exit. -/
structure RunResult where
  wireOut : List Nat
  peer : Peer
  events : List Event
  exit : LoopExit
deriving DecidableEq, Repr

/-- Run (peer.go:75): `defer close(p.disconnected)` first, then
sendBitfield (connection writes do not fail in the model), then the
read loop.  The deferred close runs on every exit of the body, panics
included, so it is applied to whatever the loop produced: the
disconnected flag is set and exactly one `Event.disconnected` is
appended to the trace. -/
def Run (b : Bitfield) (p : Peer) (input : List Nat) : RunResult :=
  let r := runLoop (input.length + 1) true p input
  ⟨sendBitfield b, { r.peer with disconnectedClosed := true },
    r.events ++ [Event.disconnected], r.exit⟩

/-- Does an event mark the close of the disconnected channel? -/
def Event.isDisc : Event → Bool
  | .disconnected => true
  | _ => false

/-! ### Reader lemmas -/

lemma readU32_be32 (n : Nat) (rest : List Nat) (h : n < 2 ^ 32) :
    readU32 (be32 n ++ rest) = some (n, rest) := by
  simp only [be32, List.cons_append, List.nil_append, readU32, Option.some.injEq,
    Prod.mk.injEq]
  refine ⟨?_, trivial⟩
  omega

lemma readBytes_append (xs ys : List Nat) :
    readBytes xs.length (xs ++ ys) = some (xs, ys) := by
  induction xs with
  | nil => rfl
  | cons a l ih => simp [readBytes, ih]

lemma readU32_length {input : List Nat} {v : Nat} {r : List Nat}
    (h : readU32 input = some (v, r)) : r.length + 4 = input.length := by
  cases input with
  | nil => simp [readU32] at h
  | cons b0 t0 =>
    cases t0 with
    | nil => simp [readU32] at h
    | cons b1 t1 =>
      cases t1 with
      | nil => simp [readU32] at h
      | cons b2 t2 =>
        cases t2 with
        | nil => simp [readU32] at h
        | cons b3 rest =>
          simp only [readU32, Option.some.injEq, Prod.mk.injEq] at h
          obtain ⟨-, h2⟩ := h
          subst h2
          simp only [List.length_cons]

lemma readByte_length {input : List Nat} {v : Nat} {r : List Nat}
    (h : readByte input = some (v, r)) : r.length + 1 = input.length := by
  cases input with
  | nil => simp [readByte] at h
  | cons b t =>
    simp only [readByte, Option.some.injEq, Prod.mk.injEq] at h
    obtain ⟨-, h2⟩ := h
    subst h2
    simp only [List.length_cons]

lemma readBytes_length :
    ∀ (n : Nat) {input bs r : List Nat},
      readBytes n input = some (bs, r) → r.length + n = input.length := by
  intro n
  induction n with
  | zero =>
    intro input bs r h
    simp only [readBytes, Option.some.injEq, Prod.mk.injEq] at h
    obtain ⟨-, h2⟩ := h
    subst h2
    rfl
  | succ m ih =>
    intro input bs r h
    cases input with
    | nil => simp [readBytes] at h
    | cons b s =>
      simp only [readBytes] at h
      cases hs : readBytes m s with
      | none => rw [hs] at h; cases h
      | some pr =>
        obtain ⟨bs2, r2⟩ := pr
        rw [hs] at h
        simp only [Option.some.injEq, Prod.mk.injEq] at h
        obtain ⟨-, h2⟩ := h
        subst h2
        have := ih hs
        simp only [List.length_cons]
        omega

/-! ### Event and haveEvents lemmas -/

lemma haveEvents_no_disc (bf : Bitfield) :
    (haveEvents bf).countP Event.isDisc = 0 := by
  rw [List.countP_eq_zero]
  intro e he
  simp only [haveEvents, List.mem_filterMap, List.mem_range] at he
  obtain ⟨i, -, hif⟩ := he
  by_cases hT : bf.Test i
  · rw [if_pos hT] at hif
    rw [← Option.some.inj hif]
    simp [Event.isDisc]
  · rw [if_neg hT] at hif
    cases hif

lemma mem_haveEvents (bf : Bitfield) (i : Nat) :
    Event.havePiece i ∈ haveEvents bf ↔ i < bf.length ∧ bf.Test i = true := by
  simp only [haveEvents, List.mem_filterMap, List.mem_range]
  constructor
  · rintro ⟨j, hj, hij⟩
    by_cases hT : bf.Test j
    · rw [if_pos hT] at hij
      have hji : j = i := by
        have := Option.some.inj hij
        injection this
      subst hji
      exact ⟨hj, hT⟩
    · rw [if_neg hT] at hij
      cases hij
  · rintro ⟨hi, hT⟩
    exact ⟨i, hi, by rw [if_pos hT]⟩

lemma haveEvents_shape (bf : Bitfield) :
    ∀ e ∈ haveEvents bf, ∃ i, e = Event.havePiece i := by
  intro e he
  simp only [haveEvents, List.mem_filterMap, List.mem_range] at he
  obtain ⟨j, -, hij⟩ := he
  by_cases hT : bf.Test j
  · rw [if_pos hT] at hij
    exact ⟨j, (Option.some.inj hij).symm⟩
  · rw [if_neg hT] at hij
    cases hij

/-! ### Structural facts about handleMsg, step and runLoop -/

lemma handleMsg_next_length {first : Bool} {p : Peer} {id len : Nat} {r2 : List Nat}
    {f2 : Bool} {p2 : Peer} {evs : List Event} {rest : List Nat}
    (h : handleMsg first p id len r2 = .next f2 p2 evs rest) :
    rest.length ≤ r2.length := by
  unfold handleMsg at h
  repeat' split at h
  all_goals first
    | exact StepResult.noConfusion h
    | (cases h; omega)
    | (cases h
       have := readU32_length (by assumption)
       omega)
    | (cases h
       have := readBytes_length _ (by assumption)
       omega)

lemma handleMsg_next_first {first : Bool} {p : Peer} {id len : Nat} {r2 : List Nat}
    {f2 : Bool} {p2 : Peer} {evs : List Event} {rest : List Nat}
    (h : handleMsg first p id len r2 = .next f2 p2 evs rest) : f2 = false := by
  unfold handleMsg at h
  repeat' split at h
  all_goals first
    | exact StepResult.noConfusion h
    | (cases h; rfl)

lemma handleMsg_exit_events {first : Bool} {p : Peer} {id len : Nat} {r2 : List Nat}
    {evs : List Event} {e : LoopExit}
    (h : handleMsg first p id len r2 = .exit evs e) :
    evs = [] ∧ e ≠ LoopExit.fuelOut := by
  unfold handleMsg at h
  repeat' split at h
  all_goals first
    | exact StepResult.noConfusion h
    | (cases h; exact ⟨rfl, by decide⟩)

lemma handleMsg_next_events {first : Bool} {p : Peer} {id len : Nat} {r2 : List Nat}
    {f2 : Bool} {p2 : Peer} {evs : List Event} {rest : List Nat}
    (h : handleMsg first p id len r2 = .next f2 p2 evs rest) :
    evs.countP Event.isDisc = 0 := by
  unfold handleMsg at h
  repeat' split at h
  all_goals first
    | exact StepResult.noConfusion h
    | (cases h; rfl)
    | (cases h; exact haveEvents_no_disc _)

lemma step_next_length {f : Bool} {p : Peer} {input : List Nat} {f2 : Bool} {p2 : Peer}
    {evs : List Event} {rest : List Nat}
    (h : step f p input = .next f2 p2 evs rest) : rest.length + 4 ≤ input.length := by
  unfold step at h
  repeat' split at h
  all_goals first
    | exact StepResult.noConfusion h
    | (cases h
       have := readU32_length (by assumption)
       omega)
    | (have hA := readU32_length (by assumption)
       have hB := readByte_length (by assumption)
       have hC := handleMsg_next_length h
       omega)

lemma step_exit_events {f : Bool} {p : Peer} {input : List Nat}
    {evs : List Event} {e : LoopExit}
    (h : step f p input = .exit evs e) : evs = [] ∧ e ≠ LoopExit.fuelOut := by
  unfold step at h
  repeat' split at h
  all_goals first
    | exact StepResult.noConfusion h
    | (cases h; exact ⟨rfl, by decide⟩)
    | exact handleMsg_exit_events h

lemma step_next_events {f : Bool} {p : Peer} {input : List Nat} {f2 : Bool} {p2 : Peer}
    {evs : List Event} {rest : List Nat}
    (h : step f p input = .next f2 p2 evs rest) : evs.countP Event.isDisc = 0 := by
  unfold step at h
  repeat' split at h
  all_goals first
    | exact StepResult.noConfusion h
    | (cases h; rfl)
    | exact handleMsg_next_events h

lemma runLoop_succ (fuel : Nat) (f : Bool) (p : Peer) (input : List Nat) :
    runLoop (fuel + 1) f p input =
      match step f p input with
      | .exit evs e => ⟨p, evs, e⟩
      | .next f2 p2 evs rest =>
        ⟨(runLoop fuel f2 p2 rest).peer, evs ++ (runLoop fuel f2 p2 rest).events,
          (runLoop fuel f2 p2 rest).exit⟩ := rfl

lemma runLoop_exit_eq (fuel : Nat) (f : Bool) (p : Peer) (input : List Nat)
    {evs : List Event} {e : LoopExit} (hs : step f p input = .exit evs e) :
    runLoop (fuel + 1) f p input = ⟨p, evs, e⟩ := by
  rw [runLoop_succ, hs]

lemma runLoop_next_eq (fuel : Nat) (f : Bool) (p : Peer) (input : List Nat)
    {f2 : Bool} {p2 : Peer} {evs : List Event} {rest : List Nat}
    (hs : step f p input = .next f2 p2 evs rest) :
    runLoop (fuel + 1) f p input =
      ⟨(runLoop fuel f2 p2 rest).peer, evs ++ (runLoop fuel f2 p2 rest).events,
        (runLoop fuel f2 p2 rest).exit⟩ := by
  rw [runLoop_succ, hs]

lemma runLoop_events_no_disc :
    ∀ (fuel : Nat) (f : Bool) (p : Peer) (input : List Nat),
      ((runLoop fuel f p input).events).countP Event.isDisc = 0
  | 0, _, _, _ => rfl
  | fuel + 1, f, p, input => by
    cases hs : step f p input with
    | exit evs e =>
      rw [runLoop_exit_eq fuel f p input hs]
      have := (step_exit_events hs).1
      subst this
      rfl
    | next f2 p2 evs rest =>
      rw [runLoop_next_eq fuel f p input hs]
      have h1 := step_next_events hs
      have h2 := runLoop_events_no_disc fuel f2 p2 rest
      simp only [List.countP_append]
      omega

lemma step_writeMessage (f : Bool) (p : Peer) (id : Nat) (payload more : List Nat)
    (h32 : 1 + payload.length < 2 ^ 32) :
    step f p (writeMessage id payload ++ more) =
      handleMsg f p id payload.length (payload ++ more) := by
  unfold writeMessage step
  rw [List.append_assoc, List.cons_append, readU32_be32 _ _ h32]
  simp [readByte]

lemma runLoop_no_fuelOut :
    ∀ (fuel : Nat) (f : Bool) (p : Peer) (input : List Nat), input.length < fuel →
      (runLoop fuel f p input).exit ≠ LoopExit.fuelOut
  | 0, _, _, input, hlt => absurd hlt (Nat.not_lt_zero _)
  | fuel + 1, f, p, input, hlt => by
    cases hs : step f p input with
    | exit evs e =>
      rw [runLoop_exit_eq fuel f p input hs]
      exact (step_exit_events hs).2
    | next f2 p2 evs rest =>
      rw [runLoop_next_eq fuel f p input hs]
      have hc := step_next_length hs
      exact runLoop_no_fuelOut fuel f2 p2 rest (by omega)


/-! ### Claim theorems -/

/-- C1 (the code contradicts the claim): a request message whose length
field is 40000 bytes, far above maxAllowedBlockSize = 32768, is NOT
rejected and the connection is NOT closed.  The Request handler of the
read loop is commented out in peer.go (lines 194-215), so the message
(id 6, payload index=0, begin=0, length=40000) falls to the default
branch, its 12 remaining payload bytes are discarded and the loop
continues: the step result is `next`, with the peer state unchanged and
no event. -/
theorem c1_oversized_request_not_rejected :
    step true (New 4) (writeMessage messageid.Request (be32 0 ++ be32 0 ++ be32 40000)) =
      .next false (New 4) [] [] := by decide

/-- C2 (the code contradicts the claim): a piece message of declared
length L = 10 (id byte, index 0, begin 0, one block byte 170) is
processed without terminating the connection, but the loop consumes
only 13 bytes of the 4 + L = 14 on the wire: the block-reading code of
the Piece branch is commented out in peer.go, so the block byte 170 is
left in the stream and the next iteration will read it as part of a
length field - the stream desynchronizes. -/
theorem c2_piece_block_bytes_left_unread :
    step true (New 4) (writeMessage messageid.Piece (be32 0 ++ be32 0 ++ [170])) =
      .next false (New 4) [] [170] ∧
    (writeMessage messageid.Piece (be32 0 ++ be32 0 ++ [170])).length = 14 := by decide

/-- C4 (the code contradicts the claim): the very first message on the
connection is have(index 0), with index 0 < numPieces = 4 perfectly in
range, yet the handler does not set a bit and emits no event: the
peer's bitfield is still nil (New leaves it nil, and no bitfield
message preceded), so `p.bitfield.Set(h.Index)` at peer.go:157
dereferences a nil pointer and panics. -/
theorem c4_have_before_bitfield_panics :
    step true (New 4) (writeMessage messageid.Have (be32 0)) =
      .exit [] .panicked := by decide

/-- C3 counterexample: a keep-alive followed by a bitfield message, on
a fresh peer with one piece.  The claim says the bitfield must be
rejected and the connection closed because it is not the very first
message; instead the loop accepts it - the Go `continue` of the
keep-alive branch skips the `first = false` statement - stores the
decoded bitfield and emits the synthetic have event for piece 0, and
the loop only ends afterwards when the stream is exhausted. -/
theorem c3_counterexample_keepalive_then_bitfield :
    runLoop 11 true (New 1) ([0, 0, 0, 0] ++ writeMessage messageid.Bitfield [128]) =
      ⟨{ New 1 with bitfield := some (Bitfield.NewBytes [128] 1) },
        [Event.havePiece 0], LoopExit.ret⟩ := by decide

/-- C5 counterexample: starting from a freshly constructed Peer, two
consecutive SendChoke calls write NO bytes at all - not one choke
message as claimed - because New initializes amChoking to true, so
already the first call hits the early return. -/
theorem c5_counterexample_two_sendchoke_zero_writes :
    (SendChoke (New 4)).2 ++ (SendChoke (SendChoke (New 4)).1).2 = [] := by decide

/-- C5 amended: starting from a freshly constructed Peer, two
consecutive SendChoke calls produce no wire message (amChoking starts
true, so the first call is already a no-op); in general the second of
two consecutive SendChoke calls never writes, and SendChoke on a peer
whose amChoking flag is already set performs no I/O. -/
theorem c5_amended_sendchoke_idempotent :
    (∀ n : Nat, (SendChoke (New n)).2 = []) ∧
    (∀ p : Peer, (SendChoke (SendChoke p).1).2 = []) ∧
    (∀ p : Peer, (SendChoke { p with amChoking := true }).2 = []) := by
  refine ⟨fun n => rfl, fun p => ?_, fun p => rfl⟩
  unfold SendChoke
  by_cases h : p.amChoking
  · rw [if_pos h]
    simp [if_pos h]
  · rw [if_neg h]
    simp

/-- C3 amended: a bitfield message received after any non-keep-alive
message on the connection is rejected and the connection closed; but a
keep-alive does not count as a first message - the keep-alive branch
leaves the first-flag untouched, so a bitfield arriving after only
keep-alives is still accepted as the first message.  Part one: a
keep-alive continues the loop with the first-flag unchanged.  Part two:
processing any non-keep-alive message clears the first-flag.  Part
three: a bitfield dispatched when the first-flag is already cleared
makes the loop return, with no event. -/
theorem c3_amended_bitfield_only_first_non_keepalive :
    (∀ (f : Bool) (p : Peer) (r : List Nat),
        step f p (0 :: 0 :: 0 :: 0 :: r) = .next f p [] r) ∧
    (∀ (f : Bool) (p : Peer) (b0 b1 b2 b3 : Nat) (r : List Nat) (f2 : Bool) (p2 : Peer)
        (evs : List Event) (rest : List Nat),
        ((b0 * 256 + b1) * 256 + b2) * 256 + b3 ≠ 0 →
        step f p (b0 :: b1 :: b2 :: b3 :: r) = .next f2 p2 evs rest → f2 = false) ∧
    (∀ (p : Peer) (payload more : List Nat), 1 + payload.length < 2 ^ 32 →
        step false p (writeMessage messageid.Bitfield payload ++ more) =
          .exit [] .ret) := by
  refine ⟨?_, ?_, ?_⟩
  · intro f p r
    simp [step, readU32]
  · intro f p b0 b1 b2 b3 r f2 p2 evs rest hne h
    unfold step at h
    simp only [readU32] at h
    rw [if_neg hne] at h
    cases r with
    | nil =>
      simp only [readByte] at h
      exact StepResult.noConfusion h
    | cons id r2 =>
      simp only [readByte] at h
      exact handleMsg_next_first h
  · intro p payload more h32
    rw [step_writeMessage false p messageid.Bitfield payload more h32]
    unfold handleMsg
    norm_num [messageid.Choke, messageid.Unchoke, messageid.Interested,
      messageid.NotInterested, messageid.Have, messageid.Bitfield]

/-- Witness for C3 amended, at concrete inputs: a choke message (a
non-keep-alive) yields a continuation whose first-flag is false, and a
bitfield message dispatched with the first-flag cleared is rejected
with the connection closed. -/
theorem c3_amended_witness :
    (false : Bool) = false ∧
    step false (New 1) (writeMessage messageid.Bitfield [128] ++ []) = .exit [] .ret := by
  constructor
  · exact c3_amended_bitfield_only_first_non_keepalive.2.1 true (New 1) 0 0 0 1
      [0] false { New 1 with peerChoking := true } [Event.choke] []
      (by decide) (by decide)
  · exact c3_amended_bitfield_only_first_non_keepalive.2.2 (New 1) [128] [] (by decide)

/-- C6: when the first message on the connection is a bitfield: if the
declared payload length is not exactly NumBytes(pieceCount) the loop
returns (connection closed) with no event; with the exact length the
decoded bitfield becomes the peer's known-piece set, the loop
continues, and the emitted events are exactly one synthetic have event
per set bit below pieceCount - a have event for index i is in the
trace iff bit i is set, and nothing but have events is emitted. -/
theorem c6_first_bitfield (p : Peer) (payload more : List Nat)
    (h32 : 1 + payload.length < 2 ^ 32) :
    (payload.length ≠ NumBytes p.numPieces →
      step true p (writeMessage messageid.Bitfield payload ++ more) = .exit [] .ret) ∧
    (payload.length = NumBytes p.numPieces →
      step true p (writeMessage messageid.Bitfield payload ++ more) =
        .next false { p with bitfield := some (Bitfield.NewBytes payload p.numPieces) }
          (haveEvents (Bitfield.NewBytes payload p.numPieces)) more ∧
      (∀ i : Nat,
        Event.havePiece i ∈ haveEvents (Bitfield.NewBytes payload p.numPieces) ↔
          i < p.numPieces ∧ (Bitfield.NewBytes payload p.numPieces).Test i = true) ∧
      (∀ e ∈ haveEvents (Bitfield.NewBytes payload p.numPieces),
        ∃ i, e = Event.havePiece i)) := by
  rw [step_writeMessage true p messageid.Bitfield payload more h32]
  constructor
  · intro hne
    unfold handleMsg
    norm_num [messageid.Choke, messageid.Unchoke, messageid.Interested,
      messageid.NotInterested, messageid.Have, messageid.Bitfield, hne]
  · intro heq
    refine ⟨?_, fun i => mem_haveEvents _ i, haveEvents_shape _⟩
    unfold handleMsg
    norm_num [messageid.Choke, messageid.Unchoke, messageid.Interested,
      messageid.NotInterested, messageid.Have, messageid.Bitfield, heq]
    rw [← heq, readBytes_append]

/-- Witness for C6: one piece, payload byte 128 (bit 0 set): the
bitfield is installed and exactly the have event for piece 0 is
emitted. -/
theorem c6_first_bitfield_witness :
    step true (New 1) (writeMessage messageid.Bitfield [128] ++ []) =
      .next false { New 1 with bitfield := some (Bitfield.NewBytes [128] 1) }
        [Event.havePiece 0] [] := by
  have h := (c6_first_bitfield (New 1) [128] [] (by decide)).2 (by decide)
  rw [h.1]
  decide

/-- C7: a have message whose index is at or beyond pieceCount makes the
read loop return (the connection is closed) and no event at all is
forwarded to the coordinator for that message. -/
theorem c7_have_out_of_range (f : Bool) (p : Peer) (index : Nat) (more : List Nat)
    (hge : p.numPieces ≤ index) (h32 : index < 2 ^ 32) :
    step f p (writeMessage messageid.Have (be32 index) ++ more) = .exit [] .ret := by
  have h5 : 1 + (be32 index).length < 2 ^ 32 := by norm_num [be32]
  rw [step_writeMessage f p messageid.Have (be32 index) more h5]
  unfold handleMsg
  norm_num [messageid.Choke, messageid.Unchoke, messageid.Interested,
    messageid.NotInterested, messageid.Have]
  rw [readU32_be32 _ _ h32]
  simp [hge]

/-- Witness for C7: index 2 on a torrent of 2 pieces (index equal to
pieceCount, the spec's concrete scenario) closes the connection with no
event. -/
theorem c7_have_out_of_range_witness :
    step true (New 2) (writeMessage messageid.Have (be32 2) ++ []) = .exit [] .ret :=
  c7_have_out_of_range true (New 2) 2 [] (by decide) (by decide)

/-- C8: Run's outgoing bytes are exactly what sendBitfield produces;
sendBitfield writes nothing iff the local bitfield has zero set bits
(Count = 0, i.e. every bit below its length is clear), and otherwise it
writes exactly one bitfield message - so an empty bitfield message is
never sent. -/
theorem c8_bitfield_sent_iff_nonempty (b : Bitfield) (p : Peer) (input : List Nat) :
    (Run b p input).wireOut = sendBitfield b ∧
    (sendBitfield b = [] ↔ b.Count = 0) ∧
    (b.Count = 0 ↔ ∀ i, i < b.length → b.Test i = false) ∧
    (sendBitfield b = [] ∨
      sendBitfield b = writeMessage messageid.Bitfield b.bytes) := by
  refine ⟨rfl, ?_, ?_, ?_⟩
  · unfold sendBitfield
    by_cases h : b.Count = 0
    · simp [h]
    · simp [h, writeMessage, be32]
  · unfold Bitfield.Count
    rw [List.countP_eq_zero]
    simp
  · unfold sendBitfield
    by_cases h : b.Count = 0
    · simp [h]
    · simp [h]

/-- Witness for C8: an all-zero one-piece local bitfield makes Run
write nothing at all. -/
theorem c8_bitfield_sent_iff_nonempty_witness :
    (Run (Bitfield.NewBytes [0] 1) (New 1) []).wireOut = [] := by
  have h := c8_bitfield_sent_iff_nonempty (Bitfield.NewBytes [0] 1) (New 1) []
  rw [h.1, (h.2.1).mpr (by decide)]

/-- C9: whatever the input stream - exhaustion or I/O error, protocol
violation, or the nil-bitfield panic (the deferred close runs on a
panic too) - every run of Run closes the disconnected channel, and
exactly one disconnect event appears in the whole trace; the loop's
exit is a genuine one, never the fuel artifact of the model. -/
theorem c9_disconnect_exactly_once (b : Bitfield) (p : Peer) (input : List Nat) :
    ((Run b p input).events).countP Event.isDisc = 1 ∧
    (Run b p input).peer.disconnectedClosed = true ∧
    (Run b p input).exit ≠ LoopExit.fuelOut := by
  refine ⟨?_, rfl, ?_⟩
  · show ((runLoop (input.length + 1) true p input).events ++
        [Event.disconnected]).countP Event.isDisc = 1
    rw [List.countP_append, runLoop_events_no_disc]
    rfl
  · show (runLoop (input.length + 1) true p input).exit ≠ LoopExit.fuelOut
    exact runLoop_no_fuelOut (input.length + 1) true p input (by omega)

/-- C10: Close is not idempotent at the public interface: a Close call
that returned normally has closed stopC, so a second Close on the same
Peer runs close(p.stopC) on an already-closed channel and panics
(modelled as none). -/
theorem c10_second_close_panics (p q : Peer) (h : p.Close = some q) :
    q.Close = none := by
  unfold Peer.Close at h ⊢
  by_cases hc : p.stopClosed
  · rw [if_pos hc] at h
    cases h
  · rw [if_neg hc] at h
    rw [← Option.some.inj h]
    simp

/-- Witness for C10: a fresh Peer, closed once successfully, panics on
the second Close. -/
theorem c10_second_close_panics_witness :
    Peer.Close { New 1 with stopClosed := true } = none :=
  c10_second_close_panics (New 1) { New 1 with stopClosed := true } rfl
